import Mathlib

/-!
Verification of the shell-environment bootstrap of this repository
(`loadShellEnv`, `loadDotEnv` and their helpers).

The process environment table is modelled as a function from variable
names to optional values; JavaScript string operations used by the code
(`split`, `trim`, `indexOf`, `substring`, `startsWith`, `endsWith`,
`slice(1, -1)`, template literals, `||` defaults and the
`indexOf`-based de-duplication filter) are given explicit executable
models over `List Char`.  The external effects (the spawned shell and
the filesystem) are represented by their observable outcomes: the
captured stdout or a thrown error for `execSync`, and a missing file,
its text, or a read error for the `.env` file.
-/

set_option maxRecDepth 8000

namespace CraftEnv

/-- Process environment table: variable name to value; absent keys map to `none`. -/
abbrev EnvT := String → Option String

/-- JavaScript truthiness of `process.env[k]`: `undefined` and the empty string are falsy. -/
def truthy : Option String → Bool
  | none => false
  | some s => !(s == "")

/-- The assignment `process.env[k] = v`. -/
def setEnv (e : EnvT) (k v : String) : EnvT :=
  fun k' => if k' = k then some v else e k'

/-- Fuel-indexed worker for JavaScript `String.prototype.split` with a
non-empty separator: scan left to right, cutting at each leftmost
non-overlapping occurrence of the separator. -/
def splitOnListAux (sep : List Char) : Nat → List Char → List (List Char)
  | _, [] => [[]]
  | 0, s => [s]
  | fuel + 1, c :: cs =>
    if sep.isPrefixOf (c :: cs) then
      [] :: splitOnListAux sep fuel (List.drop (sep.length - 1) cs)
    else
      match splitOnListAux sep fuel cs with
      | [] => [[c]]
      | seg :: segs => (c :: seg) :: segs

/-- JavaScript `s.split(sep)` on character lists. -/
def splitOnList (sep s : List Char) : List (List Char) :=
  splitOnListAux sep s.length s

/-- JavaScript `s.split(sep)` on strings. -/
def jsSplit (s sep : String) : List String :=
  (splitOnList sep.data s.data).map String.mk

/-- The whitespace class trimmed by JavaScript `trim` (ASCII part). -/
def jsIsSpace (c : Char) : Bool :=
  c == ' ' || c == '\t' || c == '\n' || c == '\r' || c == '\x0b' || c == '\x0c'

/-- JavaScript `s.trim()` on character lists. -/
def trimList (cs : List Char) : List Char :=
  ((cs.dropWhile jsIsSpace).reverse.dropWhile jsIsSpace).reverse

/-- JavaScript `s.trim()` on strings. -/
def jsTrim (s : String) : String := String.mk (trimList s.data)

/-- JavaScript `s.startsWith(p)`. -/
def jsStartsWith (s p : String) : Bool := p.data.isPrefixOf s.data

/-- JavaScript `s.endsWith(p)`. -/
def jsEndsWith (s p : String) : Bool := p.data.isSuffixOf s.data

/-- `shouldSkipEnvVar` from the source: environment variables that must not be
imported from the shell, namely every key carrying the dev-server prefix. -/
def shouldSkipEnvVar (key : String) : Bool := jsStartsWith key "VITE_"

/-- The marker token printed by the spawned shell command
(`echo __ENV_START__ && env`). -/
def envMarker : String := "__ENV_START__"

/-- One line of the spawned shell's `env` dump, as parsed by the source loop:
`eq = line.indexOf('=')`; the line is kept only when `eq > 0`; the key is
`line.substring(0, eq)` and the value `line.substring(eq + 1)`. -/
def parseShellLine (line : String) : Option (String × String) :=
  match line.data.findIdx? (fun c => c == '=') with
  | some eq =>
    if 0 < eq then
      some (String.mk (line.data.take eq), String.mk (line.data.drop (eq + 1)))
    else none
  | none => none

/-- `output.split('__ENV_START__')[1] || ''` from the source: the segment of
the captured stdout between the first and second occurrence of the marker
(all of the remainder when the marker occurs exactly once), defaulting to the
empty string when the marker is absent. -/
def envSection (output : String) : String :=
  match (splitOnList envMarker.data output.data).get? 1 with
  | some cs => String.mk cs
  | none => ""

/-- `envSection.trim().split('\n')` from the source. -/
def shellLines (output : String) : List String :=
  (splitOnList ['\n'] (trimList (envSection output).data)).map String.mk

/-- The merge loop of `loadShellEnv`: parse each line, drop lines whose key is
matched by `shouldSkipEnvVar`, and write every surviving pair into the
environment, overwriting existing values. -/
def mergeShellLines (env : EnvT) : List String → EnvT
  | [] => env
  | line :: rest =>
    match parseShellLine line with
    | some kv =>
      if shouldSkipEnvVar kv.1 then mergeShellLines env rest
      else mergeShellLines (setEnv env kv.1 kv.2) rest
    | none => mergeShellLines env rest

/-- A JavaScript template literal `${o}` of a possibly-undefined value. -/
def jsTemplateOpt (o : Option String) : String :=
  match o with
  | some s => s
  | none => "undefined"

/-- JavaScript `o || d` for an optional environment string. -/
def jsOrElse (o : Option String) (d : String) : String :=
  match o with
  | some s => if s == "" then d else s
  | none => d

/-- The `fallbackPaths` array of the source, with `${process.env.HOME}`
already interpolated. -/
def fallbackPaths (home : String) : List String :=
  ["/opt/homebrew/bin", "/opt/homebrew/sbin", "/usr/local/bin", "/usr/local/sbin",
    home ++ "/.local/bin", home ++ "/.bun/bin", home ++ "/.cargo/bin"]

/-- The de-duplication `.filter((p, i, arr) => arr.indexOf(p) === i)` of the
source: keep an element exactly when it has not occurred before, i.e. keep
first occurrences in order.  `seen` holds the elements already emitted. -/
def dedupeAux (seen : List String) : List String → List String
  | [] => []
  | p :: rest =>
    if seen.contains p then dedupeAux seen rest
    else p :: dedupeAux (seen ++ [p]) rest

/-- Keep-first-occurrence de-duplication of a list. -/
def dedupeKeepFirst (l : List String) : List String := dedupeAux [] l

/-- JavaScript `array.join(':')`. -/
def joinColon : List String → String
  | [] => ""
  | [p] => p
  | p :: q :: rest => p ++ ":" ++ joinColon (q :: rest)

/-- The fallback PATH list: `[...fallbackPaths, ...currentPath.split(':')]`
de-duplicated keeping first occurrences. -/
def newPathList (home currentPath : String) : List String :=
  dedupeKeepFirst (fallbackPaths home ++ jsSplit currentPath ":")

/-- The `catch` branch of `loadShellEnv`: synthesize a PATH from the fallback
directories and the current PATH (`process.env.PATH || '/usr/bin:/bin:/usr/sbin:/sbin'`)
and write it back to PATH only. -/
def applyFallback (env : EnvT) : EnvT :=
  setEnv env "PATH"
    (joinColon (newPathList (jsTemplateOpt (env "HOME"))
      (jsOrElse (env "PATH") "/usr/bin:/bin:/usr/sbin:/sbin")))

/-- Observable outcome of the `execSync` shell invocation: the captured stdout
on success, or a thrown error (spawn failure, non-zero exit, or timeout). -/
inductive ShellResult where
  | ok (stdout : String)
  | err

/-- `loadShellEnv` from the source: platform gate, dev-mode gate, then either
the parse-and-merge of the captured stdout or the fallback PATH synthesis of
the `catch` branch. -/
def loadShellEnv (platform : String) (env : EnvT) (res : ShellResult) : EnvT :=
  if platform ≠ "darwin" then env
  else if truthy (env "VITE_DEV_SERVER_URL") then env
  else
    match res with
    | .ok output => mergeShellLines env (shellLines output)
    | .err => applyFallback env

/-- The quote-stripping step of `loadDotEnv`: if the trimmed value starts and
ends with `"` or starts and ends with `'`, remove the first and last
character (`value.slice(1, -1)`); no escape processing. -/
def stripQuotes (value : String) : String :=
  if (jsStartsWith value "\"" && jsEndsWith value "\"")
      || (jsStartsWith value "'" && jsEndsWith value "'") then
    String.mk ((value.data.drop 1).dropLast)
  else value

/-- One line of the `.env` file, as parsed by the source loop: trim the line,
drop it when empty or a `#` comment, find the first `=` (kept only when its
index is positive), trim the key, trim the value and strip quotes. -/
def parseDotEnvLine (line : String) : Option (String × String) :=
  let trimmed := jsTrim line
  if trimmed.data.isEmpty || jsStartsWith trimmed "#" then none
  else
    match trimmed.data.findIdx? (fun c => c == '=') with
    | some eq =>
      if 0 < eq then
        some (jsTrim (String.mk (trimmed.data.take eq)),
          stripQuotes (jsTrim (String.mk (trimmed.data.drop (eq + 1)))))
      else none
    | none => none

/-- The merge loop of `loadDotEnv`: a parsed pair is written only when the
key's current value is falsy (`if (!process.env[key])`). -/
def dotEnvMergeLines (env : EnvT) : List String → EnvT
  | [] => env
  | line :: rest =>
    match parseDotEnvLine line with
    | some kv =>
      if truthy (env kv.1) then dotEnvMergeLines env rest
      else dotEnvMergeLines (setEnv env kv.1 kv.2) rest
    | none => dotEnvMergeLines env rest

/-- Observable outcome of resolving and reading `cwd()/.env`: the file is
absent (`existsSync` false), its text was read, or reading threw. -/
inductive FileResult where
  | missing
  | content (text : String)
  | err

/-- `envContent.split('\n')` from the source. -/
def dotEnvLines (text : String) : List String :=
  (splitOnList ['\n'] text.data).map String.mk

/-- The body of `loadDotEnv` after its dev-mode gate: a missing file and a
read error both leave the environment unchanged, otherwise the merge loop
runs over the file's lines. -/
def loadDotEnvBody (env : EnvT) (file : FileResult) : EnvT :=
  match file with
  | .missing => env
  | .content text => dotEnvMergeLines env (dotEnvLines text)
  | .err => env

/-- `loadDotEnv` from the source: return immediately unless the dev-server
marker variable is truthy, then resolve and read the `.env` file. -/
def loadDotEnv (env : EnvT) (file : FileResult) : EnvT :=
  if !truthy (env "VITE_DEV_SERVER_URL") then env
  else loadDotEnvBody env file

/-- Whether `sep` occurs as a contiguous substring of the character list. -/
def containsSub (sep : List Char) : List Char → Bool
  | [] => sep.isEmpty
  | c :: cs => sep.isPrefixOf (c :: cs) || containsSub sep cs

/-- Specification helper: the value of the last line of a shell `env` dump
that parses to key `k` and survives the skip filter. -/
def lastSet (k : String) : List String → Option String
  | [] => none
  | line :: rest =>
    match lastSet k rest with
    | some v => some v
    | none =>
      match parseShellLine line with
      | some kv =>
        if shouldSkipEnvVar kv.1 then none
        else if kv.1 = k then some kv.2 else none
      | none => none

/-- Specification helper: the parsed value of the first `.env` line for key
`k` whose parsed (trimmed, quote-stripped) value is non-empty. -/
def firstNonEmptyValue (k : String) : List String → Option String
  | [] => none
  | line :: rest =>
    match parseDotEnvLine line with
    | some kv =>
      if kv.1 = k && kv.2 != "" then some kv.2
      else firstNonEmptyValue k rest
    | none => firstNonEmptyValue k rest

/-- Specification helper: `orElseOpt a b` is `a` when present, else `b`. -/
def orElseOpt (a b : Option String) : Option String :=
  match a with
  | some v => some v
  | none => b

/-- Specification helper: number of occurrences of `d` in a list. -/
def countOcc (d : String) : List String → Nat
  | [] => 0
  | x :: rest => (if x = d then 1 else 0) + countOcc d rest

/-- A concrete environment table holding exactly one variable. -/
def envOf (k v : String) : EnvT := fun k' => if k' = k then some v else none

/-- The empty environment table. -/
def envEmpty : EnvT := fun _ => none

/-- A concrete environment with a PATH (containing a duplicate entry and one
fallback directory) and a HOME, for exercising the fallback synthesis. -/
def envC5 : EnvT := fun k =>
  if k = "PATH" then some "/usr/local/bin:/bin:/bin"
  else if k = "HOME" then some "/Users/u"
  else none

/-! ### Helper lemmas -/

theorem setEnv_same (e : EnvT) (k v : String) : setEnv e k v k = some v := by
  simp [setEnv]

theorem setEnv_other (e : EnvT) (k v k' : String) (h : k' ≠ k) :
    setEnv e k v k' = e k' := by
  simp [setEnv, h]

theorem data_append (s t : String) : (s ++ t).data = s.data ++ t.data := by
  cases s; cases t; rfl

theorem ne_true_of_eq_false {b : Bool} (h : b = false) : ¬(b = true) := by
  simp [h]

theorem splitOnListAux_nil (sep : List Char) (fuel : Nat) :
    splitOnListAux sep fuel [] = [[]] := by
  cases fuel <;> rfl

theorem splitOnListAux_fuel (sep : List Char) :
    ∀ (f₁ : Nat) (s : List Char) (f₂ : Nat), s.length ≤ f₁ → s.length ≤ f₂ →
      splitOnListAux sep f₁ s = splitOnListAux sep f₂ s := by
  intro f₁
  induction f₁ with
  | zero =>
    intro s f₂ h₁ _
    have hs : s = [] := List.eq_nil_of_length_eq_zero (Nat.le_zero.mp h₁)
    subst hs
    simp [splitOnListAux_nil]
  | succ f ih =>
    intro s f₂ h₁ h₂
    cases s with
    | nil => simp [splitOnListAux_nil]
    | cons c cs =>
      cases f₂ with
      | zero => simp only [List.length_cons] at h₂; omega
      | succ f' =>
        have hcs : cs.length ≤ f := by simp only [List.length_cons] at h₁; omega
        have hcs' : cs.length ≤ f' := by simp only [List.length_cons] at h₂; omega
        simp only [splitOnListAux]
        cases hp : sep.isPrefixOf (c :: cs) with
        | true =>
          rw [if_pos rfl, if_pos rfl]
          have hd : (List.drop (sep.length - 1) cs).length ≤ f := by
            rw [List.length_drop]; omega
          have hd' : (List.drop (sep.length - 1) cs).length ≤ f' := by
            rw [List.length_drop]; omega
          rw [ih _ f' hd hd']
        | false =>
          rw [if_neg (by simp), if_neg (by simp)]
          rw [ih cs f' hcs hcs']

theorem splitOnListAux_not_contains (sep : List Char) :
    ∀ (fuel : Nat) (s : List Char), s.length ≤ fuel → containsSub sep s = false →
      splitOnListAux sep fuel s = [s] := by
  intro fuel
  induction fuel with
  | zero =>
    intro s h₁ _
    have hs : s = [] := List.eq_nil_of_length_eq_zero (Nat.le_zero.mp h₁)
    subst hs
    rfl
  | succ f ih =>
    intro s h₁ hc
    cases s with
    | nil => rfl
    | cons c cs =>
      simp only [containsSub, Bool.or_eq_false_iff] at hc
      have hcs : cs.length ≤ f := by simp only [List.length_cons] at h₁; omega
      simp only [splitOnListAux]
      rw [if_neg (ne_true_of_eq_false hc.1), ih cs hcs hc.2]

theorem split_not_contains (sep s : List Char) (hc : containsSub sep s = false) :
    splitOnList sep s = [s] :=
  splitOnListAux_not_contains sep s.length s le_rfl hc

theorem splitOnListAux_append (sep : List Char) (hsep : sep ≠ []) :
    ∀ (pre : List Char) (fuel : Nat) (rest : List Char),
      (pre ++ sep ++ rest).length ≤ fuel →
      containsSub sep (pre ++ sep.dropLast) = false →
      splitOnListAux sep fuel (pre ++ sep ++ rest) =
        pre :: splitOnListAux sep rest.length rest := by
  have hseplen : 1 ≤ sep.length := by
    cases sep with
    | nil => exact absurd rfl hsep
    | cons _ _ => simp
  intro pre
  induction pre with
  | nil =>
    intro fuel rest hfuel _
    cases sep with
    | nil => exact absurd rfl hsep
    | cons s0 stl =>
      cases fuel with
      | zero => simp at hfuel
      | succ f =>
        have hform : ([] : List Char) ++ (s0 :: stl) ++ rest = s0 :: (stl ++ rest) := by
          simp
        rw [hform]
        have hp : (s0 :: stl).isPrefixOf (s0 :: (stl ++ rest)) = true := by
          rw [ List.isPrefixOf_iff_prefix]
          exact ⟨rest, by simp⟩
        simp only [splitOnListAux]
        rw [if_pos hp]
        have hdrop : List.drop ((s0 :: stl).length - 1) (stl ++ rest) = rest := by
          simp only [List.length_cons, Nat.add_sub_cancel]
          exact List.drop_left stl rest
        rw [hdrop]
        have hr : rest.length ≤ f := by
          rw [hform] at hfuel
          simp only [List.length_cons, List.length_append] at hfuel
          omega
        exact congrArg _ (splitOnListAux_fuel (s0 :: stl) f rest rest.length hr le_rfl)
  | cons c pre' ih =>
    intro fuel rest hfuel hpre
    cases fuel with
    | zero => simp at hfuel
    | succ f =>
      have hpre' : containsSub sep (c :: (pre' ++ sep.dropLast)) = false := by
        simpa using hpre
      simp only [containsSub, Bool.or_eq_false_iff] at hpre'
      have hpre1 : sep.isPrefixOf (c :: (pre' ++ sep.dropLast)) = false := hpre'.1
      have hpre2 : containsSub sep (pre' ++ sep.dropLast) = false := hpre'.2
      have hsep_eq : sep.dropLast ++ [sep.getLast hsep] = sep :=
        List.dropLast_concat_getLast hsep
      have hnp : sep.isPrefixOf (c :: (pre' ++ sep ++ rest)) = false := by
        cases hb : sep.isPrefixOf (c :: (pre' ++ sep ++ rest)) with
        | false => rfl
        | true =>
          exfalso
          rw [ List.isPrefixOf_iff_prefix] at hb
          have hdecomp : c :: (pre' ++ sep ++ rest) =
              (c :: (pre' ++ sep.dropLast)) ++ ([sep.getLast hsep] ++ rest) := by
            conv_lhs => rw [← hsep_eq]
            simp [List.append_assoc]
          have hApref : (c :: (pre' ++ sep.dropLast)) <+: c :: (pre' ++ sep ++ rest) :=
            ⟨[sep.getLast hsep] ++ rest, hdecomp.symm⟩
          have hlen : sep.length ≤ (c :: (pre' ++ sep.dropLast)).length := by
            simp only [List.length_cons, List.length_append, List.length_dropLast]
            omega
          have hsp : sep <+: (c :: (pre' ++ sep.dropLast)) :=
            List.prefix_of_prefix_length_le hb hApref hlen
          have hsb : sep.isPrefixOf (c :: (pre' ++ sep.dropLast)) = true := by
            rw [ List.isPrefixOf_iff_prefix]
            exact hsp
          rw [hsb] at hpre1
          exact Bool.noConfusion hpre1
      have hstep : (c :: pre') ++ sep ++ rest = c :: (pre' ++ sep ++ rest) := by
        simp
      rw [hstep]
      simp only [splitOnListAux]
      rw [if_neg (ne_true_of_eq_false hnp)]
      have hf : (pre' ++ sep ++ rest).length ≤ f := by
        rw [hstep] at hfuel
        simp only [List.length_cons, List.length_append] at hfuel ⊢
        omega
      rw [ih f rest hf hpre2]

theorem split_append (sep : List Char) (hsep : sep ≠ []) (pre rest : List Char)
    (hpre : containsSub sep (pre ++ sep.dropLast) = false) :
    splitOnList sep (pre ++ sep ++ rest) = pre :: splitOnList sep rest :=
  splitOnListAux_append sep hsep pre (pre ++ sep ++ rest).length rest le_rfl hpre

theorem orElseOpt_eq (a b : Option String) :
    orElseOpt a b = match a with | some v => some v | none => b := rfl

theorem mergeShellLines_lastSet (lines : List String) :
    ∀ (env : EnvT) (k : String),
      mergeShellLines env lines k = orElseOpt (lastSet k lines) (env k) := by
  induction lines with
  | nil => intro env k; rfl
  | cons line rest ih =>
    intro env k
    cases hp : parseShellLine line with
    | none =>
      simp only [mergeShellLines, lastSet, hp]
      rw [ih env k]
      cases lastSet k rest <;> rfl
    | some kv =>
      cases hskip : shouldSkipEnvVar kv.1 with
      | true =>
        simp only [mergeShellLines, lastSet, hp, hskip, if_true]
        rw [ih env k]
        cases lastSet k rest <;> rfl
      | false =>
        simp only [mergeShellLines, lastSet, hp, hskip, Bool.false_eq_true, if_false]
        rw [ih (setEnv env kv.1 kv.2) k]
        by_cases hk : kv.1 = k
        · subst hk
          cases lastSet kv.1 rest with
          | some w => rfl
          | none =>
            rw [if_pos rfl, setEnv_same env kv.1 kv.2]
            rfl
        · rw [setEnv_other env kv.1 kv.2 k (fun hh => hk hh.symm)]
          cases lastSet k rest with
          | some w => rfl
          | none =>
            rw [if_neg hk]

theorem mergeShellLines_skipped (k : String) (hk : shouldSkipEnvVar k = true) :
    ∀ (lines : List String) (env : EnvT), mergeShellLines env lines k = env k := by
  intro lines
  induction lines with
  | nil => intro env; rfl
  | cons line rest ih =>
    intro env
    cases hp : parseShellLine line with
    | none =>
      simp only [mergeShellLines, hp]
      exact ih env
    | some kv =>
      cases hskip : shouldSkipEnvVar kv.1 with
      | true =>
        simp only [mergeShellLines, hp, hskip, if_true]
        exact ih env
      | false =>
        simp only [mergeShellLines, hp, hskip, Bool.false_eq_true, if_false]
        rw [ih (setEnv env kv.1 kv.2)]
        have hne : k ≠ kv.1 := by
          intro hh
          rw [hh, hskip] at hk
          exact Bool.noConfusion hk
        exact setEnv_other env kv.1 kv.2 k hne

theorem dotEnvMergeLines_preserve (k s : String) (hs : s ≠ "") :
    ∀ (lines : List String) (env : EnvT), env k = some s →
      dotEnvMergeLines env lines k = some s := by
  intro lines
  induction lines with
  | nil => intro env h; exact h
  | cons line rest ih =>
    intro env h
    cases hp : parseDotEnvLine line with
    | none =>
      simp only [dotEnvMergeLines, hp]
      exact ih env h
    | some kv =>
      by_cases hk : kv.1 = k
      · have htr : truthy (env kv.1) = true := by
          rw [hk, h]
          simp [truthy, hs]
        simp only [dotEnvMergeLines, hp, htr, if_true]
        exact ih env h
      · cases htr : truthy (env kv.1) with
        | true =>
          simp only [dotEnvMergeLines, hp, htr, if_true]
          exact ih env h
        | false =>
          simp only [dotEnvMergeLines, hp, htr, Bool.false_eq_true, if_false]
          refine ih (setEnv env kv.1 kv.2) ?_
          rw [setEnv_other env kv.1 kv.2 k (fun hh => hk hh.symm)]
          exact h

theorem dotEnvMergeLines_firstNonEmpty (k : String) :
    ∀ (lines : List String) (env : EnvT) (v : String),
      truthy (env k) = false → firstNonEmptyValue k lines = some v →
      dotEnvMergeLines env lines k = some v := by
  intro lines
  induction lines with
  | nil =>
    intro env v _ h
    exact absurd h (by simp [firstNonEmptyValue])
  | cons line rest ih =>
    intro env v h0 hfv
    cases hp : parseDotEnvLine line with
    | none =>
      simp only [dotEnvMergeLines, hp]
      simp only [firstNonEmptyValue, hp] at hfv
      exact ih env v h0 hfv
    | some kv =>
      by_cases hk : kv.1 = k
      · subst hk
        simp only [dotEnvMergeLines, hp, h0, Bool.false_eq_true, if_false]
        simp only [firstNonEmptyValue, hp] at hfv
        by_cases hv : kv.2 = ""
        · have hcond : (decide True && kv.2 != "") = false := by
            simp [hv]
          rw [if_neg (ne_true_of_eq_false hcond)] at hfv
          refine ih (setEnv env kv.1 kv.2) v ?_ hfv
          rw [setEnv_same env kv.1 kv.2, hv]
          rfl
        · have hcond : (decide True && kv.2 != "") = true := by
            simp [hv]
          rw [if_pos hcond] at hfv
          have hveq : kv.2 = v := Option.some.inj hfv
          subst hveq
          exact dotEnvMergeLines_preserve kv.1 kv.2 hv rest (setEnv env kv.1 kv.2)
            (setEnv_same env kv.1 kv.2)
      · have hcond : (decide (kv.1 = k) && kv.2 != "") = false := by
          simp [hk]
        simp only [firstNonEmptyValue, hp] at hfv
        rw [if_neg (ne_true_of_eq_false hcond)] at hfv
        cases htr : truthy (env kv.1) with
        | true =>
          simp only [dotEnvMergeLines, hp, htr, if_true]
          exact ih env v h0 hfv
        | false =>
          simp only [dotEnvMergeLines, hp, htr, Bool.false_eq_true, if_false]
          refine ih (setEnv env kv.1 kv.2) v ?_ hfv
          rw [setEnv_other env kv.1 kv.2 k (fun hh => hk hh.symm)]
          exact h0

theorem if_bool_true {α : Sort _} {b : Bool} (h : b = true) (x y : α) :
    (if b then x else y) = x := by
  subst h; rfl

theorem if_bool_false {α : Sort _} {b : Bool} (h : b = false) (x y : α) :
    (if b then x else y) = y := by
  subst h; rfl

theorem dedupeAux_seen_ext :
    ∀ (l seen₁ seen₂ : List String), (∀ x, x ∈ seen₁ ↔ x ∈ seen₂) →
      dedupeAux seen₁ l = dedupeAux seen₂ l := by
  intro l
  induction l with
  | nil => intro _ _ _; rfl
  | cons p rest ih =>
    intro s₁ s₂ hext
    have hc : s₁.contains p = s₂.contains p := by
      simp only [List.contains, List.elem_eq_mem]
      exact decide_eq_decide.mpr (hext p)
    simp only [dedupeAux]
    rcases Bool.eq_false_or_eq_true (s₂.contains p) with h | h
    · rw [if_bool_true (hc.trans h), if_bool_true h]
      exact ih s₁ s₂ hext
    · rw [if_bool_false (hc.trans h), if_bool_false h]
      refine congrArg (p :: ·) ?_
      refine ih (s₁ ++ [p]) (s₂ ++ [p]) ?_
      intro x
      simp only [List.mem_append, List.mem_singleton]
      exact or_congr_left (hext x)

theorem dedupeAux_append :
    ∀ (l r seen : List String),
      dedupeAux seen (l ++ r) =
        dedupeAux seen l ++ dedupeAux (seen ++ dedupeAux seen l) r := by
  intro l
  induction l with
  | nil =>
    intro r seen
    simp only [List.nil_append, dedupeAux]
    rw [List.append_nil]
  | cons p l' ih =>
    intro r seen
    simp only [List.cons_append, List.append_eq, dedupeAux]
    rcases Bool.eq_false_or_eq_true (seen.contains p) with h | h
    · rw [if_bool_true h, if_bool_true h]
      exact ih r seen
    · rw [if_bool_false h, if_bool_false h]
      simp only [List.cons_append]
      refine congrArg (p :: ·) ?_
      rw [ih r (seen ++ [p])]
      exact congrArg (fun z => dedupeAux (seen ++ [p]) l' ++ dedupeAux z r)
        (by simp [List.append_assoc])

theorem dedupeAux_fresh :
    ∀ (l seen : List String), (∀ x ∈ l, seen.contains x = false) → l.Nodup →
      dedupeAux seen l = l := by
  intro l
  induction l with
  | nil => intro _ _ _; rfl
  | cons p l' ih =>
    intro seen hfresh hnd
    have hp : seen.contains p = false := hfresh p (List.mem_cons_self p l')
    simp only [dedupeAux]
    rw [if_bool_false hp]
    refine congrArg (p :: ·) ?_
    refine ih (seen ++ [p]) ?_ (List.Nodup.of_cons hnd)
    intro x hx
    have hxs : seen.contains x = false := hfresh x (List.mem_cons_of_mem p hx)
    have hxp : x ≠ p := by
      intro hh
      subst hh
      exact (List.nodup_cons.mp hnd).1 hx
    simp only [List.contains, List.elem_eq_mem, decide_eq_false_iff_not] at hxs ⊢
    simp only [List.mem_append, List.mem_singleton]
    rintro (h | h)
    · exact hxs h
    · exact hxp h

theorem dedupeAux_filter :
    ∀ (l s t : List String),
      dedupeAux (s ++ t) l =
        (dedupeAux t l).filter (fun x => !(s.contains x)) := by
  intro l
  induction l with
  | nil => intro s t; rfl
  | cons p l' ih =>
    intro s t
    have hst : (s ++ t).contains p = (s.contains p || t.contains p) := by
      simp [List.contains, List.elem_eq_mem, List.mem_append]
    simp only [dedupeAux]
    rcases Bool.eq_false_or_eq_true (s.contains p) with hs | hs
    · have hps : p ∈ s := by
        have hmem := hs
        simp only [List.contains, List.elem_eq_mem, decide_eq_true_eq] at hmem
        exact hmem
      rcases Bool.eq_false_or_eq_true (t.contains p) with ht | ht
      · rw [if_bool_true (by rw [hst, hs, ht]; rfl), if_bool_true ht]
        exact ih s t
      · rw [if_bool_true (by rw [hst, hs, ht]; rfl), if_bool_false ht]
        rw [List.filter_cons]
        rw [if_bool_false (by rw [hs]; rfl)]
        refine (dedupeAux_seen_ext l' (s ++ t) (s ++ (t ++ [p])) ?_).trans
          (ih s (t ++ [p]))
        intro x
        simp only [List.mem_append, List.mem_singleton]
        constructor
        · rintro (h | h)
          · exact Or.inl h
          · exact Or.inr (Or.inl h)
        · rintro (h | h | h)
          · exact Or.inl h
          · exact Or.inr h
          · exact Or.inl (h ▸ hps)
    · rcases Bool.eq_false_or_eq_true (t.contains p) with ht | ht
      · rw [if_bool_true (by rw [hst, hs, ht]; rfl), if_bool_true ht]
        exact ih s t
      · rw [if_bool_false (by rw [hst, hs, ht]; rfl), if_bool_false ht]
        rw [List.filter_cons]
        rw [if_bool_true (by rw [hs]; rfl)]
        refine congrArg (p :: ·) ?_
        rw [List.append_assoc]
        exact ih s (t ++ [p])

theorem newPathList_eq (home p : String) (hnd : (fallbackPaths home).Nodup) :
    newPathList home p =
      fallbackPaths home ++
        (dedupeKeepFirst (jsSplit p ":")).filter
          (fun d => !((fallbackPaths home).contains d)) := by
  unfold newPathList dedupeKeepFirst
  rw [dedupeAux_append (fallbackPaths home) (jsSplit p ":") []]
  have hfb : dedupeAux [] (fallbackPaths home) = fallbackPaths home :=
    dedupeAux_fresh (fallbackPaths home) [] (fun x _ => rfl) hnd
  rw [hfb, List.nil_append]
  have hfl := dedupeAux_filter (jsSplit p ":") (fallbackPaths home) []
  rw [List.append_nil] at hfl
  rw [hfl]

theorem countOcc_append (d : String) :
    ∀ l r, countOcc d (l ++ r) = countOcc d l + countOcc d r := by
  intro l
  induction l with
  | nil => intro r; simp [countOcc]
  | cons x l' ih =>
    intro r
    simp only [List.cons_append, List.append_eq, countOcc]
    rw [ih r]
    omega

theorem countOcc_eq_zero (d : String) :
    ∀ l, d ∉ l → countOcc d l = 0 := by
  intro l
  induction l with
  | nil => intro _; rfl
  | cons x l' ih =>
    intro hd
    have hx : ¬(x = d) := by
      intro hh
      exact hd (hh ▸ List.mem_cons_self x l')
    have hd' : d ∉ l' := fun hh => hd (List.mem_cons_of_mem x hh)
    simp only [countOcc, if_neg hx, ih hd']

theorem countOcc_nodup (d : String) :
    ∀ l, l.Nodup → d ∈ l → countOcc d l = 1 := by
  intro l
  induction l with
  | nil => intro _ h; exact absurd h (List.not_mem_nil d)
  | cons x l' ih =>
    intro hnd hd
    by_cases hx : x = d
    · subst hx
      have hnotin : x ∉ l' := (List.nodup_cons.mp hnd).1
      simp only [countOcc, if_pos rfl, countOcc_eq_zero x l' hnotin]
      simp
    · have hd' : d ∈ l' := by
        cases List.mem_cons.mp hd with
        | inl h => exact absurd h.symm hx
        | inr h => exact h
      simp only [countOcc, if_neg hx, ih (List.Nodup.of_cons hnd) hd']

/-! ### Claims -/

/-- C1 counterexample: the claim is inverted on the code.  With the dev-server
marker variable present (truthy), `loadDotEnv` is not a no-op — it loads `FOO`
from the file — and with the marker absent it does not read the file at all
(`BAR` stays unset). -/
theorem C1_counterexample :
    truthy (envOf "VITE_DEV_SERVER_URL" "http://localhost:5173" "VITE_DEV_SERVER_URL") = true
    ∧ envOf "VITE_DEV_SERVER_URL" "http://localhost:5173" "FOO" = none
    ∧ loadDotEnv (envOf "VITE_DEV_SERVER_URL" "http://localhost:5173")
        (.content "FOO=1") "FOO" = some "1"
    ∧ loadDotEnv (envOf "FOO" "1") (.content "BAR=2") "BAR" = none := by
  decide

/-- C1 (amended): `loadDotEnv` runs only when the dev-server marker variable is
present with a truthy (non-empty) value: whenever the marker is absent or
falsy, `loadDotEnv` is a no-op, and when it is truthy the loader proceeds to
resolve and read the `.env` file. -/
theorem C1 (env : EnvT) (file : FileResult) :
    (truthy (env "VITE_DEV_SERVER_URL") = false → loadDotEnv env file = env)
    ∧ (truthy (env "VITE_DEV_SERVER_URL") = true →
        loadDotEnv env file = loadDotEnvBody env file) := by
  constructor
  · intro h
    unfold loadDotEnv
    rw [if_bool_true (by simp [h])]
  · intro h
    unfold loadDotEnv
    rw [if_bool_false (by simp [h])]

/-- C1 witness: the gate theorem applied at concrete inputs. -/
theorem C1_witness :
    loadDotEnv (envOf "FOO" "1") FileResult.missing = envOf "FOO" "1"
    ∧ loadDotEnv (envOf "VITE_DEV_SERVER_URL" "x") (.content "A=1") =
        loadDotEnvBody (envOf "VITE_DEV_SERVER_URL" "x") (.content "A=1") :=
  ⟨(C1 (envOf "FOO" "1") FileResult.missing).1 (by decide),
    (C1 (envOf "VITE_DEV_SERVER_URL" "x") (.content "A=1")).2 (by decide)⟩

/-- C2 counterexample: `loadDotEnv` has no skip filter, so after both loaders
run the environment can contain a new `VITE_`-prefixed key (`VITE_X`) sourced
from the `.env` file that was not present before the shell loader ran. -/
theorem C2_counterexample :
    shouldSkipEnvVar "VITE_X" = true
    ∧ envOf "VITE_DEV_SERVER_URL" "http://localhost:5173" "VITE_X" = none
    ∧ loadDotEnv
        (loadShellEnv "darwin" (envOf "VITE_DEV_SERVER_URL" "http://localhost:5173") (.ok ""))
        (.content "VITE_X=1") "VITE_X" = some "1" := by
  decide

/-- C2 (amended): the invariant holds for the shell loader: on every platform,
for every starting environment and every shell outcome, `loadShellEnv` leaves
every key matched by the skip predicate (the `VITE_` prefix) exactly as it
was — shell-sourced entries with that prefix are filtered out, pre-existing
ones are never removed, and none is introduced.  (The dotenv loader, however,
may introduce `VITE_`-prefixed keys from the `.env` file.) -/
theorem C2 (platform : String) (env : EnvT) (res : ShellResult) (k : String)
    (h : shouldSkipEnvVar k = true) :
    loadShellEnv platform env res k = env k := by
  unfold loadShellEnv
  by_cases hp : platform = "darwin"
  · subst hp
    rw [if_neg (by simp)]
    rcases Bool.eq_false_or_eq_true (truthy (env "VITE_DEV_SERVER_URL")) with hg | hg
    · rw [if_bool_true hg]
    · rw [if_bool_false hg]
      cases res with
      | ok out => exact mergeShellLines_skipped k h (shellLines out) env
      | err =>
        refine setEnv_other env "PATH" _ k (fun hh => ?_)
        rw [hh] at h
        exact absurd h (by decide)
  · rw [if_pos hp]

/-- C2 witness: a `VITE_` key exported by the shell is not imported. -/
theorem C2_witness :
    loadShellEnv "darwin" (envOf "PATH" "/bin") (.ok "__ENV_START__\nVITE_X=9\n") "VITE_X"
      = envOf "PATH" "/bin" "VITE_X" :=
  C2 "darwin" (envOf "PATH" "/bin") (.ok "__ENV_START__\nVITE_X=9\n") "VITE_X" (by decide)

/-- C3 counterexample: when the shell invocation succeeds but the marker token
is absent from its stdout, `loadShellEnv` does not perform the fallback PATH
synthesis — the environment (including PATH) is left unchanged, and the
fallback result differs from the unchanged PATH. -/
theorem C3_counterexample :
    loadShellEnv "darwin" (envOf "PATH" "/bin") (.ok "FOO=1\n") "PATH" = some "/bin"
    ∧ loadShellEnv "darwin" (envOf "PATH" "/bin") (.ok "FOO=1\n") "FOO" = none
    ∧ applyFallback (envOf "PATH" "/bin") "PATH" ≠ some "/bin" := by
  decide

/-- C3 (amended): on every throwing failure of the shell invocation (spawn
error, non-zero exit, timeout), `loadShellEnv` does not rethrow and performs
the fallback PATH synthesis; when the marker token is absent from a successful
invocation's stdout, the output is treated as an empty environment section: no
variables are merged, the environment is unchanged, and the fallback is not
performed. -/
theorem C3 (env : EnvT) (out : String)
    (hgate : truthy (env "VITE_DEV_SERVER_URL") = false)
    (hm : containsSub envMarker.data out.data = false) :
    loadShellEnv "darwin" env .err = applyFallback env
    ∧ loadShellEnv "darwin" env (.ok out) = env := by
  constructor
  · unfold loadShellEnv
    rw [if_neg (by simp), if_bool_false hgate]
  · unfold loadShellEnv
    rw [if_neg (by simp), if_bool_false hgate]
    show mergeShellLines env (shellLines out) = env
    have hsec : envSection out = "" := by
      unfold envSection
      rw [split_not_contains envMarker.data out.data hm]
      rfl
    have hlines : shellLines out = [""] := by
      unfold shellLines
      rw [hsec]
      rfl
    rw [hlines]
    rfl

/-- C3 witness: the amended theorem applied at concrete inputs. -/
theorem C3_witness :
    loadShellEnv "darwin" (envOf "PATH" "/bin") .err = applyFallback (envOf "PATH" "/bin")
    ∧ loadShellEnv "darwin" (envOf "PATH" "/bin") (.ok "FOO=1\n") = envOf "PATH" "/bin" :=
  C3 (envOf "PATH" "/bin") "FOO=1\n" (by decide) (by decide)

/-- C4 counterexample: when the marker token occurs more than once in the
captured stdout, only the text between the first and second occurrence is
parsed — the well-formed, surviving line `B=2` after the second occurrence is
not merged. -/
theorem C4_counterexample :
    parseShellLine "B=2" = some ("B", "2")
    ∧ shouldSkipEnvVar "B" = false
    ∧ loadShellEnv "darwin" envEmpty
        (.ok "__ENV_START__\nA=1\n__ENV_START__\nB=2\n") "A" = some "1"
    ∧ loadShellEnv "darwin" envEmpty
        (.ok "__ENV_START__\nA=1\n__ENV_START__\nB=2\n") "B" = none := by
  decide

/-- C4 (amended): when the marker token occurs exactly once in the captured
stdout, no text before the marker ever produces an environment entry — the
environment section is exactly the text after the marker — and every
well-formed surviving `KEY=VALUE` line of that section is merged (the last
occurrence for a key giving that key's final value). -/
theorem C4 (env : EnvT) (pre sec : String)
    (hgate : truthy (env "VITE_DEV_SERVER_URL") = false)
    (hpre : containsSub envMarker.data (pre.data ++ envMarker.data.dropLast) = false)
    (hsec : containsSub envMarker.data sec.data = false) :
    envSection (pre ++ envMarker ++ sec) = sec
    ∧ ∀ k v, lastSet k (shellLines (pre ++ envMarker ++ sec)) = some v →
        loadShellEnv "darwin" env (.ok (pre ++ envMarker ++ sec)) k = some v := by
  have hmarker_ne : envMarker.data ≠ [] := by decide
  have hdata : (pre ++ envMarker ++ sec).data
      = pre.data ++ envMarker.data ++ sec.data := by
    rw [data_append, data_append]
  have hES : envSection (pre ++ envMarker ++ sec) = sec := by
    unfold envSection
    rw [hdata, split_append envMarker.data hmarker_ne pre.data sec.data hpre,
      split_not_contains envMarker.data sec.data hsec]
    rfl
  refine ⟨hES, ?_⟩
  intro k v hlast
  unfold loadShellEnv
  rw [if_neg (by simp), if_bool_false hgate]
  show mergeShellLines env (shellLines (pre ++ envMarker ++ sec)) k = some v
  rw [mergeShellLines_lastSet (shellLines (pre ++ envMarker ++ sec)) env k, hlast]
  rfl

/-- C4 witness: banner noise before the marker produces no entry, and the
`FOO` line after the single marker occurrence is merged. -/
theorem C4_witness :
    envSection ("Last login banner\n" ++ envMarker ++ "\nFOO=bar\nPATH=/a:/b\n")
       = "\nFOO=bar\nPATH=/a:/b\n"
    ∧ loadShellEnv "darwin" envEmpty
        (.ok ("Last login banner\n" ++ envMarker ++ "\nFOO=bar\nPATH=/a:/b\n")) "FOO"
       = some "bar" := by
  have h := C4 envEmpty "Last login banner\n" "\nFOO=bar\nPATH=/a:/b\n"
    (by decide) (by decide) (by decide)
  exact ⟨h.1, h.2 "FOO" "bar" (by decide)⟩

/-- C5: when the fallback branch runs with a pre-existing non-empty PATH, the
new PATH is the declared fallback directories in order, followed by the
pre-existing PATH entries de-duplicated keeping first occurrences (entries
equal to a fallback directory are absorbed by the prefix); each fallback
directory occurs exactly once; and only the PATH entry is modified. -/
theorem C5 (env : EnvT) (p : String) (hp : env "PATH" = some p) (hne : p ≠ "")
    (hnd : (fallbackPaths (jsTemplateOpt (env "HOME"))).Nodup) :
    applyFallback env "PATH" =
      some (joinColon (fallbackPaths (jsTemplateOpt (env "HOME")) ++
        (dedupeKeepFirst (jsSplit p ":")).filter
          (fun d => !((fallbackPaths (jsTemplateOpt (env "HOME"))).contains d))))
    ∧ (∀ d ∈ fallbackPaths (jsTemplateOpt (env "HOME")),
        countOcc d (newPathList (jsTemplateOpt (env "HOME")) p) = 1)
    ∧ (∀ k, k ≠ "PATH" → applyFallback env k = env k) := by
  have hcur : jsOrElse (env "PATH") "/usr/bin:/bin:/usr/sbin:/sbin" = p := by
    rw [hp]
    simp [jsOrElse, hne]
  refine ⟨?_, ?_, ?_⟩
  · unfold applyFallback
    rw [hcur, setEnv_same, newPathList_eq (jsTemplateOpt (env "HOME")) p hnd]
  · intro d hd
    rw [newPathList_eq (jsTemplateOpt (env "HOME")) p hnd, countOcc_append]
    have h1 : countOcc d (fallbackPaths (jsTemplateOpt (env "HOME"))) = 1 :=
      countOcc_nodup d _ hnd hd
    have h2 : countOcc d ((dedupeKeepFirst (jsSplit p ":")).filter
        (fun x => !((fallbackPaths (jsTemplateOpt (env "HOME"))).contains x))) = 0 := by
      apply countOcc_eq_zero
      intro hmem
      rcases List.mem_filter.mp hmem with ⟨_, hpred⟩
      simp at hpred
      exact hpred hd
    rw [h1, h2]
  · intro k hk
    exact setEnv_other env "PATH" _ k hk

/-- C5 witness: the fallback applied to a PATH containing a duplicate and one
fallback directory, with a concrete HOME. -/
theorem C5_witness :
    applyFallback envC5 "PATH" =
      some (joinColon (fallbackPaths (jsTemplateOpt (envC5 "HOME")) ++
        (dedupeKeepFirst (jsSplit "/usr/local/bin:/bin:/bin" ":")).filter
          (fun d => !((fallbackPaths (jsTemplateOpt (envC5 "HOME"))).contains d))))
    ∧ countOcc "/usr/local/bin"
        (newPathList (jsTemplateOpt (envC5 "HOME")) "/usr/local/bin:/bin:/bin") = 1
    ∧ applyFallback envC5 "FOO" = envC5 "FOO" := by
  have h := C5 envC5 "/usr/local/bin:/bin:/bin" (by decide) (by decide) (by decide)
  exact ⟨h.1, h.2.1 "/usr/local/bin" (by decide), h.2.2 "FOO" (by decide)⟩

/-- C6: every surviving key/value pair parsed from the shell output is written
unconditionally, overwriting any pre-existing value: whenever the last
surviving shell line for key `k` carries value `v`, the final value of `k` is
`v`, whatever the starting environment held. -/
theorem C6 (env : EnvT) (out k v : String)
    (hgate : truthy (env "VITE_DEV_SERVER_URL") = false)
    (h : lastSet k (shellLines out) = some v) :
    loadShellEnv "darwin" env (.ok out) k = some v := by
  unfold loadShellEnv
  rw [if_neg (by simp), if_bool_false hgate]
  show mergeShellLines env (shellLines out) k = some v
  rw [mergeShellLines_lastSet (shellLines out) env k, h]
  rfl

/-- C6 witness: the claim's own example — pre-existing `PATH=/bin` is
overwritten by the shell-reported `/usr/local/bin:/bin`. -/
theorem C6_witness :
    loadShellEnv "darwin" (envOf "PATH" "/bin")
      (.ok "__ENV_START__\nPATH=/usr/local/bin:/bin\n") "PATH"
      = some "/usr/local/bin:/bin" :=
  C6 (envOf "PATH" "/bin") "__ENV_START__\nPATH=/usr/local/bin:/bin\n" "PATH"
    "/usr/local/bin:/bin" (by decide) (by decide)

/-- C7: the dotenv merge never overrides a present non-empty value (for any
file outcome and any gate state), and a present-but-empty value counts as
absent: a parsed line for such a key is written. -/
theorem C7 (env : EnvT) (k : String) :
    (∀ (file : FileResult) (s : String), env k = some s → s ≠ "" →
      loadDotEnv env file k = some s)
    ∧ (∀ (line : String) (rest : List String) (v : String),
        env k = some "" → parseDotEnvLine line = some (k, v) → v ≠ "" →
        dotEnvMergeLines env (line :: rest) k = some v) := by
  constructor
  · intro file s hks hs
    unfold loadDotEnv
    rcases Bool.eq_false_or_eq_true (truthy (env "VITE_DEV_SERVER_URL")) with hg | hg
    · rw [if_bool_false (by simp [hg])]
      cases file with
      | missing => exact hks
      | err => exact hks
      | content text =>
        exact dotEnvMergeLines_preserve k s hs (dotEnvLines text) env hks
    · rw [if_bool_true (by simp [hg])]
      exact hks
  · intro line rest v hk0 hpl hv
    simp only [dotEnvMergeLines, hpl]
    have htr : truthy (env k) = false := by rw [hk0]; rfl
    rw [if_bool_false htr]
    exact dotEnvMergeLines_preserve k v hv rest (setEnv env k v) (setEnv_same env k v)

/-- C7 witness: `FOO=1` in the environment beats `FOO=2` in the file, and an
empty-string `FOO` is overwritten by the file's `FOO=2`. -/
theorem C7_witness :
    loadDotEnv (envOf "FOO" "1") (.content "FOO=2") "FOO" = some "1"
    ∧ dotEnvMergeLines (envOf "FOO" "") ["FOO=2"] "FOO" = some "2" :=
  ⟨(C7 (envOf "FOO" "1") "FOO").1 (.content "FOO=2") "1" (by decide) (by decide),
    (C7 (envOf "FOO" "") "FOO").2 "FOO=2" [] "2" (by decide) (by decide) (by decide)⟩

/-- C8 counterexample: the claim's mismatched-quote example is wrong on the
code: `KEY='a'b'` starts and ends with a single quote, so the code strips the
outer pair and yields `a'b`, not the raw string. -/
theorem C8_counterexample :
    parseDotEnvLine "KEY='a'b'" = some ("KEY", "a'b")
    ∧ stripQuotes "'a'b'" = "a'b"
    ∧ "a'b" ≠ "'a'b'" := by
  decide

/-- C8 (amended): the trimmed value is quote-stripped (first and last
character removed, no escape processing) exactly when it starts and ends with
`"` or starts and ends with `'` — regardless of interior quote characters —
and is kept raw otherwise; `KEY="value with spaces"` yields `value with
spaces`, and `KEY='a'b'` yields `a'b`. -/
theorem C8 (v : String) :
    (((jsStartsWith v "\"" && jsEndsWith v "\"")
        || (jsStartsWith v "'" && jsEndsWith v "'")) = false → stripQuotes v = v)
    ∧ (((jsStartsWith v "\"" && jsEndsWith v "\"")
        || (jsStartsWith v "'" && jsEndsWith v "'")) = true →
        stripQuotes v = String.mk ((v.data.drop 1).dropLast))
    ∧ parseDotEnvLine "KEY=\"value with spaces\"" = some ("KEY", "value with spaces")
    ∧ parseDotEnvLine "KEY='a'b'" = some ("KEY", "a'b") := by
  refine ⟨?_, ?_, by decide, by decide⟩
  · intro h
    unfold stripQuotes
    rw [if_bool_false h]
  · intro h
    unfold stripQuotes
    rw [if_bool_true h]

/-- C8 witness: a value with no wrapping quote pair is kept raw, and a
double-quoted value loses its first and last characters. -/
theorem C8_witness :
    stripQuotes "plain" = "plain"
    ∧ stripQuotes "\"value with spaces\""
        = String.mk (("\"value with spaces\"".data.drop 1).dropLast) :=
  ⟨(C8 "plain").1 (by decide), (C8 "\"value with spaces\"").2.1 (by decide)⟩

/-- C9: both loaders return normally on every modelled outcome — each error is
absorbed at the loader boundary: a dotenv read error or missing file is a
no-op, and a throwing shell invocation becomes the PATH fallback when the
platform and dev-mode gates let the loader run (and a no-op otherwise). -/
theorem C9 (platform : String) (env : EnvT) :
    loadDotEnv env .err = env
    ∧ loadDotEnv env .missing = env
    ∧ (platform = "darwin" → truthy (env "VITE_DEV_SERVER_URL") = false →
        loadShellEnv platform env .err = applyFallback env)
    ∧ (platform ≠ "darwin" → loadShellEnv platform env .err = env)
    ∧ (truthy (env "VITE_DEV_SERVER_URL") = true →
        loadShellEnv platform env .err = env) := by
  refine ⟨?_, ?_, ?_, ?_, ?_⟩
  · unfold loadDotEnv
    rcases Bool.eq_false_or_eq_true (truthy (env "VITE_DEV_SERVER_URL")) with hg | hg
    · rw [if_bool_false (by simp [hg])]
      rfl
    · rw [if_bool_true (by simp [hg])]
  · unfold loadDotEnv
    rcases Bool.eq_false_or_eq_true (truthy (env "VITE_DEV_SERVER_URL")) with hg | hg
    · rw [if_bool_false (by simp [hg])]
      rfl
    · rw [if_bool_true (by simp [hg])]
  · intro hplat hgate
    subst hplat
    unfold loadShellEnv
    rw [if_neg (by simp), if_bool_false hgate]
  · intro hplat
    unfold loadShellEnv
    rw [if_pos hplat]
  · intro hg
    unfold loadShellEnv
    by_cases hplat : platform ≠ "darwin"
    · rw [if_pos hplat]
    · rw [if_neg hplat, if_bool_true hg]

/-- C9 witness: the error-conversion equations at concrete inputs. -/
theorem C9_witness :
    loadDotEnv envEmpty FileResult.err = envEmpty
    ∧ loadShellEnv "darwin" envEmpty .err = applyFallback envEmpty
    ∧ loadShellEnv "linux" envEmpty .err = envEmpty
    ∧ loadShellEnv "darwin" (envOf "VITE_DEV_SERVER_URL" "x") .err
        = envOf "VITE_DEV_SERVER_URL" "x" :=
  ⟨(C9 "darwin" envEmpty).1,
    (C9 "darwin" envEmpty).2.2.1 rfl (by decide),
    (C9 "linux" envEmpty).2.2.2.1 (by decide),
    (C9 "darwin" (envOf "VITE_DEV_SERVER_URL" "x")).2.2.2.2 (by decide)⟩

/-- C10: when a key is initially absent and the file holds several lines for
it, the dotenv loader gives the key the value of the first line whose parsed
(trimmed, quote-stripped) value is non-empty: lines with empty parsed values
write an empty string, which still counts as absent for later lines. -/
theorem C10 (env : EnvT) (text : String) (k v : String)
    (hgate : truthy (env "VITE_DEV_SERVER_URL") = true)
    (h0 : env k = none)
    (h : firstNonEmptyValue k (dotEnvLines text) = some v) :
    loadDotEnv env (.content text) k = some v := by
  unfold loadDotEnv
  rw [if_bool_false (by simp [hgate])]
  exact dotEnvMergeLines_firstNonEmpty k (dotEnvLines text) env v (by rw [h0]; rfl) h

/-- C10 witness: `FOO=` does not block the later `FOO=2`, which wins over
`FOO=3`. -/
theorem C10_witness :
    loadDotEnv (envOf "VITE_DEV_SERVER_URL" "x")
      (.content "FOO=\nFOO=2\nFOO=3") "FOO" = some "2" :=
  C10 (envOf "VITE_DEV_SERVER_URL" "x") "FOO=\nFOO=2\nFOO=3" "FOO" "2"
    (by decide) (by decide) (by decide)

end CraftEnv
